import Mathlib

/-!
Verification of `filterpy.kalman.fading_memory.FadingKalmanFilter`.

Shallow embedding of the fading-memory Kalman filter from
`src/filterpy/kalman/fading_memory.py` over exact rational arithmetic.
Matrices are `Matrix (Fin m) (Fin n) ℚ`; the mutable Python object becomes a
Lean structure threaded through the operations; `scipy.linalg.inv`'s failure
on a singular matrix becomes an `Option` result.
-/

open Matrix

/-- Column vector of height `n`, the shape `(n, 1)` used by the source. -/
abbrev ColVec (n : ℕ) : Type := Matrix (Fin n) (Fin 1) ℚ

/-- Square matrix of size `n`. -/
abbrev SqMat (n : ℕ) : Type := Matrix (Fin n) (Fin n) ℚ

/-- Matrix inverse as computed by `scipy.linalg.inv` on a nonsingular matrix,
written computably over ℚ: `det⁻¹ • adjugate`.  On a singular matrix the
caller (`FadingKalmanFilter.update`) checks the determinant and fails
instead of using this value. -/
def minv {n : ℕ} (A : SqMat n) : SqMat n :=
  (A.det)⁻¹ • A.adjugate

/-- State of a `FadingKalmanFilter` object: every attribute assigned by
`__init__` and mutated by `update` / `predict`.  The Python scalar-`0`
placeholders for `B`, `F`, `H`, `K`, `S` are the zero matrices of the
documented shapes. -/
structure FadingKalmanFilter (dim_x dim_z dim_u : ℕ) where
  alpha_sq : ℚ
  x : ColVec dim_x
  P : SqMat dim_x
  Q : SqMat dim_x
  B : Matrix (Fin dim_x) (Fin dim_u) ℚ
  F : SqMat dim_x
  H : Matrix (Fin dim_z) (Fin dim_x) ℚ
  R : SqMat dim_z
  K : Matrix (Fin dim_x) (Fin dim_z) ℚ
  y : ColVec dim_z
  S : SqMat dim_z
  I : SqMat dim_x

namespace FadingKalmanFilter

/-- The `R` argument of `update`: `None`, a scalar, or a matrix of arbitrary
shape `(m, n)` (the shape is only checked where numpy would reject it). -/
inductive RArg (dim_z : ℕ) : Type
  | noneR : RArg dim_z
  | scalarR (r : ℚ) : RArg dim_z
  | matR (m n : ℕ) (M : Matrix (Fin m) (Fin n) ℚ) : RArg dim_z

/-- Reindex a matrix whose dimensions are propositionally equal to `(dim_z, dim_z)`. -/
def castMat {dim_z m n : ℕ} (hm : m = dim_z) (hn : n = dim_z)
    (M : Matrix (Fin m) (Fin n) ℚ) : SqMat dim_z :=
  Matrix.of fun i j => M (Fin.cast hm.symm i) (Fin.cast hn.symm j)

/-- Resolve the `R` argument of `update` as the source does: `None` means the
stored `self.R`, a scalar `r` means `eye(dim_z) * r`, and a matrix is used as
given (a matrix of the wrong shape would make `H·P·Hᵗ + R` a numpy shape
error, modelled as `none`). -/
def resolveR {dim_x dim_z dim_u : ℕ} (f : FadingKalmanFilter dim_x dim_z dim_u) :
    RArg dim_z → Option (SqMat dim_z)
  | RArg.noneR => some f.R
  | RArg.scalarR r => some (r • (1 : SqMat dim_z))
  | RArg.matR m n M =>
      if h : m = dim_z ∧ n = dim_z then some (castMat h.1 h.2 M) else none

/-- The assignments of `FadingKalmanFilter.update` on a measurement, with
the resolved `R`: `y = z − H·x`, `S = H·P·Hᵗ + R`, `K = P·Hᵗ·S⁻¹`,
`x = x + K·y`, and the Joseph-form
`P = (I−K·H)·P·(I−K·H)ᵗ + K·R·Kᵗ`, with `y`, `S`, `K` stored. -/
def updatedState {dim_x dim_z dim_u : ℕ} (f : FadingKalmanFilter dim_x dim_z dim_u)
    (z : ColVec dim_z) (R : SqMat dim_z) : FadingKalmanFilter dim_x dim_z dim_u :=
  let y := z - f.H * f.x
  let S := f.H * f.P * f.Hᵀ + R
  let K := f.P * f.Hᵀ * minv S
  { f with
      x := f.x + K * y
      P := (f.I - K * f.H) * f.P * (f.I - K * f.H)ᵀ + K * R * Kᵀ
      K := K
      y := y
      S := S }

/-- `FadingKalmanFilter.update(self, z, R=None)`.  `z = none` returns
immediately with nothing changed.  Otherwise resolve `R` and perform the
assignments of `updatedState`, failing when `S` is singular as
`scipy.linalg.inv` does. -/
def update {dim_x dim_z dim_u : ℕ} (f : FadingKalmanFilter dim_x dim_z dim_u)
    (z : Option (ColVec dim_z)) (Ra : RArg dim_z) :
    Option (FadingKalmanFilter dim_x dim_z dim_u) :=
  match z with
  | none => some f
  | some zv =>
    match resolveR f Ra with
    | none => none
    | some R =>
      if (f.H * f.P * f.Hᵀ + R).det = 0 then none
      else some (updatedState f zv R)

/-- `FadingKalmanFilter.predict(self, u=0)`: `x ← F·x + B·u`,
`P ← alpha_sq·(F·P·Fᵗ) + Q`. -/
def predict {dim_x dim_z dim_u : ℕ} (f : FadingKalmanFilter dim_x dim_z dim_u)
    (u : ColVec dim_u) : FadingKalmanFilter dim_x dim_z dim_u :=
  { f with
      x := f.F * f.x + f.B * u
      P := f.alpha_sq • (f.F * f.P * f.Fᵀ) + f.Q }

/-- `FadingKalmanFilter.__init__(self, alpha, dim_x, dim_z, dim_u=0)`.
The four `assert` statements fail (Python raises) unless `alpha ≥ 1`,
`dim_x > 0`, `dim_z > 0` and `dim_u ≥ 0`; on success every attribute gets
its default.  Dimensions are ℤ so that the negative cases are expressible. -/
def init (alpha : ℚ) (dim_x dim_z dim_u : ℤ) :
    Option (FadingKalmanFilter dim_x.toNat dim_z.toNat dim_u.toNat) :=
  if 1 ≤ alpha ∧ 0 < dim_x ∧ 0 < dim_z ∧ 0 ≤ dim_u then
    some { alpha_sq := alpha ^ 2
           x := 0
           P := 1
           Q := 1
           B := 0
           F := 0
           H := 0
           R := 1
           K := 0
           y := 0
           S := 0
           I := 1 }
  else none

/-- Everything `batch_filter` produces: the four recorded sequences it
returns, together with the filter state left behind by its in-place
mutation. -/
structure BatchOut (dim_x dim_z dim_u : ℕ) where
  means : List (ColVec dim_x)
  covs : List (SqMat dim_x)
  means_p : List (ColVec dim_x)
  covs_p : List (SqMat dim_x)
  final : FadingKalmanFilter dim_x dim_z dim_u

/-- Loop body sequence of `FadingKalmanFilter.batch_filter` over the zipped
`(z, R)` pairs.  `uf = true` runs `update` then `predict` per step and
records post-update state into `means`/`covs`, post-predict state into
`means_p`/`covs_p`; `uf = false` runs `predict` then `update` and records
symmetrically.  `predict` is called with its default `u = 0`. -/
def batch_core {dim_x dim_z dim_u : ℕ} :
    Bool → FadingKalmanFilter dim_x dim_z dim_u →
    List (Option (ColVec dim_z) × RArg dim_z) → Option (BatchOut dim_x dim_z dim_u)
  | _, f, [] => some ⟨[], [], [], [], f⟩
  | true, f, zr :: rest =>
    match update f zr.1 zr.2 with
    | none => none
    | some f1 =>
      let f2 := predict f1 0
      match batch_core true f2 rest with
      | none => none
      | some o =>
        some ⟨f1.x :: o.means, f1.P :: o.covs, f2.x :: o.means_p, f2.P :: o.covs_p, o.final⟩
  | false, f, zr :: rest =>
    let f1 := predict f 0
    match update f1 zr.1 zr.2 with
    | none => none
    | some f2 =>
      match batch_core false f2 rest with
      | none => none
      | some o =>
        some ⟨f2.x :: o.means, f2.P :: o.covs, f1.x :: o.means_p, f1.P :: o.covs_p, o.final⟩

/-- `FadingKalmanFilter.batch_filter(self, zs, Rs=None, update_first=False)`:
when `Rs` is `None` it becomes `[None]*n`, then the loop runs over
`zip(zs, Rs)`. -/
def batch_filter {dim_x dim_z dim_u : ℕ} (f : FadingKalmanFilter dim_x dim_z dim_u)
    (zs : List (Option (ColVec dim_z))) (Rs : Option (List (RArg dim_z)))
    (update_first : Bool) : Option (BatchOut dim_x dim_z dim_u) :=
  batch_core update_first f
    (zs.zip (Rs.getD (List.replicate zs.length RArg.noneR)))

/-- One manual step `predict()` then `update(z, R)`, the reference recursion
`batch_filter` must agree with when `update_first = False`. -/
def stepPU {dim_x dim_z dim_u : ℕ} (f : FadingKalmanFilter dim_x dim_z dim_u)
    (zr : Option (ColVec dim_z) × RArg dim_z) :
    Option (FadingKalmanFilter dim_x dim_z dim_u) :=
  update (predict f 0) zr.1 zr.2

/-- One manual step `update(z, R)` then `predict()`, the reference recursion
`batch_filter` must agree with when `update_first = True`. -/
def stepUP {dim_x dim_z dim_u : ℕ} (f : FadingKalmanFilter dim_x dim_z dim_u)
    (zr : Option (ColVec dim_z) × RArg dim_z) :
    Option (FadingKalmanFilter dim_x dim_z dim_u) :=
  match update f zr.1 zr.2 with
  | none => none
  | some g => some (predict g 0)

/-- Repeatedly apply a fallible step, stopping at the first failure. -/
def runSteps {dim_x dim_z dim_u : ℕ}
    (step : FadingKalmanFilter dim_x dim_z dim_u →
      Option (ColVec dim_z) × RArg dim_z →
      Option (FadingKalmanFilter dim_x dim_z dim_u)) :
    FadingKalmanFilter dim_x dim_z dim_u →
    List (Option (ColVec dim_z) × RArg dim_z) →
    Option (FadingKalmanFilter dim_x dim_z dim_u)
  | f, [] => some f
  | f, zr :: rest =>
    match step f zr with
    | none => none
    | some g => runSteps step g rest

/-- A single call a caller can make on the mutable filter. -/
inductive Call (dim_x dim_z dim_u : ℕ) : Type
  | predictC (u : ColVec dim_u) : Call dim_x dim_z dim_u
  | updateC (z : Option (ColVec dim_z)) (Ra : RArg dim_z) : Call dim_x dim_z dim_u

/-- Run one call. -/
def runCall {dim_x dim_z dim_u : ℕ} (f : FadingKalmanFilter dim_x dim_z dim_u) :
    Call dim_x dim_z dim_u → Option (FadingKalmanFilter dim_x dim_z dim_u)
  | Call.predictC u => some (predict f u)
  | Call.updateC z Ra => update f z Ra

/-- Run a sequence of predict/update calls, stopping at the first failure. -/
def runCalls {dim_x dim_z dim_u : ℕ} :
    FadingKalmanFilter dim_x dim_z dim_u → List (Call dim_x dim_z dim_u) →
    Option (FadingKalmanFilter dim_x dim_z dim_u)
  | f, [] => some f
  | f, c :: rest =>
    match runCall f c with
    | none => none
    | some g => runCalls g rest

/-- A symmetric matrix `R` argument: trivially satisfied by `None` and by a
scalar, and demanding symmetry of the matrix when one is passed. -/
def RArgSymm {dim_z : ℕ} : RArg dim_z → Prop
  | RArg.matR m n M =>
      ∀ (hm : m = dim_z) (hn : n = dim_z),
        (castMat hm hn M)ᵀ = castMat hm hn M
  | _ => True

/-- A call whose `R` argument (when it has one) is symmetric. -/
def CallRSymm {dim_x dim_z dim_u : ℕ} : Call dim_x dim_z dim_u → Prop
  | Call.updateC _ Ra => RArgSymm Ra
  | Call.predictC _ => True

/-- `FadingKalmanFilter.get_prediction(self, u=0)`: returns
`(F·x + B·u, alpha_sq·(F·P·Fᵗ) + Q)` without assigning any attribute
(the source method contains no assignment, so it embeds as a pure function
of the filter). -/
def get_prediction {dim_x dim_z dim_u : ℕ} (f : FadingKalmanFilter dim_x dim_z dim_u)
    (u : ColVec dim_u) : ColVec dim_x × SqMat dim_x :=
  (f.F * f.x + f.B * u, f.alpha_sq • (f.F * f.P * f.Fᵀ) + f.Q)

/-- `FadingKalmanFilter.residual_of(self, z)`: `z − H·x`, no assignment. -/
def residual_of {dim_x dim_z dim_u : ℕ} (f : FadingKalmanFilter dim_x dim_z dim_u)
    (z : ColVec dim_z) : ColVec dim_z :=
  z - f.H * f.x

/-- `FadingKalmanFilter.measurement_of_state(self, x)`: `H·x`, no assignment. -/
def measurement_of_state {dim_x dim_z dim_u : ℕ}
    (f : FadingKalmanFilter dim_x dim_z dim_u) (x : ColVec dim_x) : ColVec dim_z :=
  f.H * x

/-- The spec's 1-D constant-position scenario: the filter built by
`FadingKalmanFilter(1., dim_x=1, dim_z=1, dim_u=0)` after the caller sets
`F = [[1]]`, `H = [[1]]`, `Q = [[0]]` (defaults keep `x = [[0]]`,
`P = [[1]]`, `R = [[1]]`). -/
def fil1D : FadingKalmanFilter 1 1 0 :=
  { alpha_sq := 1
    x := 0
    P := 1
    Q := 0
    B := 0
    F := 1
    H := 1
    R := 1
    K := 0
    y := 0
    S := 0
    I := 1 }

end FadingKalmanFilter

open FadingKalmanFilter

theorem minv_eq_inv {n : ℕ} (A : SqMat n) : minv A = A⁻¹ := by
  rw [Matrix.inv_def, minv, Ring.inverse_eq_inv]

theorem update_some_eq {dim_x dim_z dim_u : ℕ}
    (f : FadingKalmanFilter dim_x dim_z dim_u) (z : ColVec dim_z)
    (Ra : RArg dim_z) (Rm : SqMat dim_z)
    (hR : resolveR f Ra = some Rm)
    (hdet : (f.H * f.P * f.Hᵀ + Rm).det ≠ 0) :
    update f (some z) Ra = some (updatedState f z Rm) := by
  unfold update
  rw [hR]
  exact if_neg hdet

theorem update_some_inv {dim_x dim_z dim_u : ℕ}
    (f f' : FadingKalmanFilter dim_x dim_z dim_u) (z : ColVec dim_z)
    (Ra : RArg dim_z)
    (h : update f (some z) Ra = some f') :
    ∃ Rm, resolveR f Ra = some Rm ∧ (f.H * f.P * f.Hᵀ + Rm).det ≠ 0 ∧
      f' = updatedState f z Rm := by
  unfold update at h
  cases hR : resolveR f Ra with
  | none => rw [hR] at h; exact absurd h (by intro hc; cases hc)
  | some Rm =>
    rw [hR] at h
    change (if (f.H * f.P * f.Hᵀ + Rm).det = 0 then none
      else some (updatedState f z Rm)) = some f' at h
    by_cases hdet : (f.H * f.P * f.Hᵀ + Rm).det = 0
    · rw [if_pos hdet] at h
      exact absurd h (by intro hc; cases hc)
    · rw [if_neg hdet] at h
      refine ⟨Rm, rfl, hdet, ?_⟩
      cases h
      rfl

/-- C1: a successful `update` with a measurement resolves `R` (stored `R`
for `None`, `r·I` for a scalar `r`, a full matrix as given) and sets
`y = z − H·x₀`, `S = H·P₀·Hᵗ + R`, `K = P₀·Hᵗ·S⁻¹`, `x = x₀ + K·y`,
`P = (I−K·H)·P₀·(I−K·H)ᵗ + K·R·Kᵗ`, storing `S`, `K`, `y` as the last-call
diagnostics. -/
theorem C1_update_formulas {dim_x dim_z dim_u : ℕ}
    (f f' : FadingKalmanFilter dim_x dim_z dim_u) (z : ColVec dim_z)
    (Ra : RArg dim_z) (Rm : SqMat dim_z)
    (hI : f.I = 1)
    (hR : resolveR f Ra = some Rm)
    (h : update f (some z) Ra = some f') :
    resolveR f (RArg.noneR) = some f.R ∧
    (∀ r : ℚ, resolveR f (RArg.scalarR r) = some (r • (1 : SqMat dim_z))) ∧
    (∀ M : SqMat dim_z, resolveR f (RArg.matR dim_z dim_z M) = some M) ∧
    f'.y = z - f.H * f.x ∧
    f'.S = f.H * f.P * f.Hᵀ + Rm ∧
    f'.K = f.P * f.Hᵀ * (f'.S)⁻¹ ∧
    f'.x = f.x + f'.K * f'.y ∧
    f'.P = (1 - f'.K * f.H) * f.P * (1 - f'.K * f.H)ᵀ + f'.K * Rm * f'.Kᵀ := by
  obtain ⟨Rm', hR', hdet, hf'⟩ := update_some_inv f f' z Ra h
  rw [hR] at hR'
  cases hR'
  subst hf'
  refine ⟨rfl, fun r => rfl, fun M => ?_, rfl, rfl, ?_, rfl, ?_⟩
  · show (if h : dim_z = dim_z ∧ dim_z = dim_z then
      some (castMat h.1 h.2 M) else none) = some M
    rw [dif_pos ⟨rfl, rfl⟩]
    rfl
  · show f.P * f.Hᵀ * minv (f.H * f.P * f.Hᵀ + Rm) =
      f.P * f.Hᵀ * ((updatedState f z Rm).S)⁻¹
    rw [minv_eq_inv]
    rfl
  · show (f.I - _ * f.H) * f.P * (f.I - _ * f.H)ᵀ + _ = _
    rw [hI]
    rfl

/-- C1 witness: the 1-D scenario filter with `z = [[1]]` and the default
`R`; the gain equals `P·Hᵗ·S⁻¹` for the stored `S`. -/
theorem C1_update_formulas_witness :
    (updatedState fil1D !![(1 : ℚ)] 1).K =
      fil1D.P * fil1D.Hᵀ * ((updatedState fil1D !![(1 : ℚ)] 1).S)⁻¹ := by
  have hdet : (fil1D.H * fil1D.P * fil1D.Hᵀ + 1).det ≠ 0 := by
    rw [Matrix.det_fin_one]
    norm_num [fil1D, Matrix.add_apply, Matrix.one_apply]
  exact (C1_update_formulas fil1D _ !![(1 : ℚ)] RArg.noneR 1 rfl rfl
    (update_some_eq fil1D !![(1 : ℚ)] RArg.noneR 1 rfl hdet)).2.2.2.2.2.1

/-- C2: `predict` sets `x = F·x₀ + B·u` and
`P = alpha_sq·(F·P₀·Fᵗ) + Q`; with `alpha_sq = 1` the covariance prediction
is the standard Kalman `F·P₀·Fᵗ + Q`. -/
theorem C2_predict_formulas {dim_x dim_z dim_u : ℕ}
    (f : FadingKalmanFilter dim_x dim_z dim_u) (u : ColVec dim_u) :
    (predict f u).x = f.F * f.x + f.B * u ∧
    (predict f u).P = f.alpha_sq • (f.F * f.P * f.Fᵀ) + f.Q ∧
    (f.alpha_sq = 1 → (predict f u).P = f.F * f.P * f.Fᵀ + f.Q) := by
  refine ⟨rfl, rfl, fun h1 => ?_⟩
  show f.alpha_sq • (f.F * f.P * f.Fᵀ) + f.Q = _
  rw [h1, one_smul]

/-- C2 witness: the 1-D scenario filter has `alpha_sq = 1`, and its
covariance prediction is the standard Kalman one. -/
theorem C2_predict_formulas_witness :
    (predict fil1D 0).P = fil1D.F * fil1D.P * fil1D.Fᵀ + fil1D.Q :=
  (C2_predict_formulas fil1D 0).2.2 rfl

/-- C4: `update` with `z = None` succeeds and leaves `x` and `P`
unchanged. -/
theorem C4_update_none_noop {dim_x dim_z dim_u : ℕ}
    (f : FadingKalmanFilter dim_x dim_z dim_u) (Ra : RArg dim_z) :
    ∃ f', update f none Ra = some f' ∧ f'.x = f.x ∧ f'.P = f.P :=
  ⟨f, rfl, rfl, rfl⟩

/-- C9: `update` with `z = None` returns before the `R` argument is looked
at: for every `R` argument, including a matrix of arbitrary (wrong) shape,
the whole filter — `K`, `S`, `y` and the stored `R` included — is returned
unchanged and no failure occurs. -/
theorem C9_update_none_frame {dim_x dim_z dim_u : ℕ}
    (f : FadingKalmanFilter dim_x dim_z dim_u) (Ra : RArg dim_z) :
    update f none Ra = some f :=
  rfl

/-- C7: `get_prediction` returns exactly the pair `predict` would store,
`residual_of z` returns `z − H·x`, and `measurement_of_state x` returns
`H·x`; all three are pure functions of the filter (their source bodies
contain no assignment), so no field changes. -/
theorem C7_pure_queries {dim_x dim_z dim_u : ℕ}
    (f : FadingKalmanFilter dim_x dim_z dim_u) (u : ColVec dim_u)
    (z : ColVec dim_z) (v : ColVec dim_x) :
    get_prediction f u = ((predict f u).x, (predict f u).P) ∧
    residual_of f z = z - f.H * f.x ∧
    measurement_of_state f v = f.H * v :=
  ⟨rfl, rfl, rfl⟩

/-- C6: construction fails exactly when `alpha < 1`, `dim_x ≤ 0`,
`dim_z ≤ 0` or `dim_u < 0`; on success it stores `alpha_sq = alpha²` and the
default attributes `x = 0`, `P = Q = R = I`, `K = S = y = 0`, and the zero
placeholders for `F`, `B`, `H`. -/
theorem C6_init_spec (alpha : ℚ) (dim_x dim_z dim_u : ℤ) :
    (init alpha dim_x dim_z dim_u = none ↔
      alpha < 1 ∨ dim_x ≤ 0 ∨ dim_z ≤ 0 ∨ dim_u < 0) ∧
    (∀ f, init alpha dim_x dim_z dim_u = some f →
      f.alpha_sq = alpha ^ 2 ∧ f.x = 0 ∧ f.P = 1 ∧ f.Q = 1 ∧ f.R = 1 ∧
      f.K = 0 ∧ f.S = 0 ∧ f.y = 0 ∧ f.F = 0 ∧ f.B = 0 ∧ f.H = 0) := by
  constructor
  · unfold init
    split_ifs with h
    · constructor
      · intro hc
        cases hc
      · rintro (hlt | hle | hle | hlt)
        · exact absurd h.1 (not_le.mpr hlt)
        · exact absurd h.2.1 (not_lt.mpr hle)
        · exact absurd h.2.2.1 (not_lt.mpr hle)
        · exact absurd h.2.2.2 (not_le.mpr hlt)
    · constructor
      · intro _
        by_contra hc
        push_neg at hc
        exact h ⟨hc.1, hc.2.1, hc.2.2.1, hc.2.2.2⟩
      · intro _
        rfl
  · intro f hf
    unfold init at hf
    split_ifs at hf with h
    cases hf
    exact ⟨rfl, rfl, rfl, rfl, rfl, rfl, rfl, rfl, rfl, rfl, rfl⟩

/-- C6 witness: `FadingKalmanFilter(2., 2, 1)` is accepted and stores
`alpha_sq = 2²` with the identity covariance. -/
theorem C6_init_spec_witness :
    ∃ f, init 2 2 1 0 = some f ∧ f.alpha_sq = 2 ^ 2 ∧ f.P = 1 := by
  have h := (C6_init_spec 2 2 1 0).2
  exact ⟨_, rfl, (h _ rfl).1, (h _ rfl).2.2.1⟩

/-- C8: on the 1-D constant-position scenario (`F = H = [[1]]`,
`Q = [[0]]`, `R = [[1]]`, `x = [[0]]`, `P = [[1]]`, `alpha = 1`) one update
with `z = [[1]]` gives `K = [[1/2]]`, `x = [[1/2]]`, `P = [[1/2]]`; and with
`alpha_sq = 1.21` a predict from `P = [[1]]` gives `P = [[1.21]]`. -/
theorem C8_scenario :
    ∃ f', update fil1D (some !![(1 : ℚ)]) RArg.noneR = some f' ∧
      f'.K = !![(1 : ℚ) / 2] ∧ f'.x = !![(1 : ℚ) / 2] ∧ f'.P = !![(1 : ℚ) / 2] ∧
      (predict { fil1D with alpha_sq := (121 : ℚ) / 100 } 0).P =
        !![(121 : ℚ) / 100] := by
  have hdet : (fil1D.H * fil1D.P * fil1D.Hᵀ + fil1D.R).det ≠ 0 := by
    rw [Matrix.det_fin_one]
    norm_num [fil1D, Matrix.add_apply, Matrix.one_apply]
  have hm : minv (fil1D.H * fil1D.P * fil1D.Hᵀ + fil1D.R) = !![(1 : ℚ) / 2] := by
    rw [minv, Matrix.det_fin_one, Matrix.adjugate_fin_one]
    ext i j
    fin_cases i
    fin_cases j
    simp [fil1D, Matrix.add_apply, Matrix.one_apply]
    norm_num
  refine ⟨_, update_some_eq fil1D !![(1 : ℚ)] RArg.noneR fil1D.R rfl hdet,
    ?_, ?_, ?_, ?_⟩
  · show fil1D.P * fil1D.Hᵀ * minv (fil1D.H * fil1D.P * fil1D.Hᵀ + fil1D.R) =
      !![(1 : ℚ) / 2]
    rw [hm]
    ext i j
    fin_cases i
    fin_cases j
    simp [fil1D, Matrix.mul_apply]
  · show fil1D.x +
      fil1D.P * fil1D.Hᵀ * minv (fil1D.H * fil1D.P * fil1D.Hᵀ + fil1D.R) *
        (!![(1 : ℚ)] - fil1D.H * fil1D.x) = !![(1 : ℚ) / 2]
    rw [hm]
    ext i j
    fin_cases i
    fin_cases j
    simp [fil1D, Matrix.mul_apply]
  · show (fil1D.I -
        fil1D.P * fil1D.Hᵀ * minv (fil1D.H * fil1D.P * fil1D.Hᵀ + fil1D.R) *
          fil1D.H) * fil1D.P *
        (fil1D.I -
          fil1D.P * fil1D.Hᵀ * minv (fil1D.H * fil1D.P * fil1D.Hᵀ + fil1D.R) *
            fil1D.H)ᵀ +
        fil1D.P * fil1D.Hᵀ * minv (fil1D.H * fil1D.P * fil1D.Hᵀ + fil1D.R) *
          fil1D.R *
          (fil1D.P * fil1D.Hᵀ *
            minv (fil1D.H * fil1D.P * fil1D.Hᵀ + fil1D.R))ᵀ = !![(1 : ℚ) / 2]
    rw [hm]
    ext i j
    fin_cases i
    fin_cases j
    simp [fil1D, Matrix.mul_apply, Matrix.sub_apply, Matrix.one_apply,
      Matrix.vecHead, Matrix.vecTail]
    norm_num
  · show ((121 : ℚ) / 100) • (fil1D.F * fil1D.P * fil1D.Fᵀ) + fil1D.Q =
      !![(121 : ℚ) / 100]
    ext i j
    fin_cases i
    fin_cases j
    simp [fil1D, Matrix.one_apply]

theorem resolveR_symm {dim_x dim_z dim_u : ℕ}
    (f : FadingKalmanFilter dim_x dim_z dim_u) (Ra : RArg dim_z)
    (Rm : SqMat dim_z) (hR : f.Rᵀ = f.R) (hs : RArgSymm Ra)
    (h : resolveR f Ra = some Rm) : Rmᵀ = Rm := by
  cases Ra with
  | noneR =>
    cases h
    exact hR
  | scalarR r =>
    cases h
    rw [Matrix.transpose_smul, Matrix.transpose_one]
  | matR m n M =>
    simp only [resolveR] at h
    split_ifs at h with hmn
    cases h
    exact hs hmn.1 hmn.2

theorem sandwich_symm {n m : ℕ} (A : Matrix (Fin n) (Fin m) ℚ) (P : SqMat m)
    (hP : Pᵀ = P) : (A * P * Aᵀ)ᵀ = A * P * Aᵀ := by
  rw [Matrix.transpose_mul, Matrix.transpose_mul, Matrix.transpose_transpose,
    hP, Matrix.mul_assoc]

theorem joseph_symm {n m : ℕ} (A : SqMat n) (K : Matrix (Fin n) (Fin m) ℚ)
    (P : SqMat n) (R : SqMat m) (hP : Pᵀ = P) (hR : Rᵀ = R) :
    (A * P * Aᵀ + K * R * Kᵀ)ᵀ = A * P * Aᵀ + K * R * Kᵀ := by
  rw [Matrix.transpose_add, sandwich_symm A P hP, sandwich_symm K R hR]

theorem predict_P_symm {dim_x dim_z dim_u : ℕ}
    (f : FadingKalmanFilter dim_x dim_z dim_u) (u : ColVec dim_u)
    (hP : f.Pᵀ = f.P) (hQ : f.Qᵀ = f.Q) :
    ((predict f u).P)ᵀ = (predict f u).P := by
  show (f.alpha_sq • (f.F * f.P * f.Fᵀ) + f.Q)ᵀ =
    f.alpha_sq • (f.F * f.P * f.Fᵀ) + f.Q
  rw [Matrix.transpose_add, Matrix.transpose_smul, sandwich_symm f.F f.P hP, hQ]

theorem updatedState_P_symm {dim_x dim_z dim_u : ℕ}
    (f : FadingKalmanFilter dim_x dim_z dim_u) (z : ColVec dim_z)
    (Rm : SqMat dim_z) (hP : f.Pᵀ = f.P) (hRm : Rmᵀ = Rm) :
    ((updatedState f z Rm).P)ᵀ = (updatedState f z Rm).P := by
  show ((f.I - f.P * f.Hᵀ * minv (f.H * f.P * f.Hᵀ + Rm) * f.H) * f.P *
        (f.I - f.P * f.Hᵀ * minv (f.H * f.P * f.Hᵀ + Rm) * f.H)ᵀ +
      f.P * f.Hᵀ * minv (f.H * f.P * f.Hᵀ + Rm) * Rm *
        (f.P * f.Hᵀ * minv (f.H * f.P * f.Hᵀ + Rm))ᵀ)ᵀ =
    (f.I - f.P * f.Hᵀ * minv (f.H * f.P * f.Hᵀ + Rm) * f.H) * f.P *
        (f.I - f.P * f.Hᵀ * minv (f.H * f.P * f.Hᵀ + Rm) * f.H)ᵀ +
      f.P * f.Hᵀ * minv (f.H * f.P * f.Hᵀ + Rm) * Rm *
        (f.P * f.Hᵀ * minv (f.H * f.P * f.Hᵀ + Rm))ᵀ
  exact joseph_symm _ _ _ _ hP hRm

theorem runCall_symm {dim_x dim_z dim_u : ℕ}
    (f g : FadingKalmanFilter dim_x dim_z dim_u) (c : Call dim_x dim_z dim_u)
    (hP : f.Pᵀ = f.P) (hQ : f.Qᵀ = f.Q) (hR : f.Rᵀ = f.R)
    (hc : CallRSymm c) (h : runCall f c = some g) :
    g.Pᵀ = g.P ∧ g.Qᵀ = g.Q ∧ g.Rᵀ = g.R := by
  cases c with
  | predictC u =>
    cases h
    exact ⟨predict_P_symm f u hP hQ, hQ, hR⟩
  | updateC z Ra =>
    cases z with
    | none =>
      cases h
      exact ⟨hP, hQ, hR⟩
    | some zv =>
      obtain ⟨Rm, hRm, hdet, hg⟩ := update_some_inv f g zv Ra h
      subst hg
      exact ⟨updatedState_P_symm f zv Rm hP (resolveR_symm f Ra Rm hR hc hRm), hQ, hR⟩

/-- C5: starting from a symmetric `P` with symmetric `Q` and symmetric
stored `R`, any sequence of `predict`/`update` calls whose per-call matrix
`R` overrides are symmetric keeps `P` symmetric: `predict` maps a symmetric
`P₀` to the symmetric `alpha_sq·F·P₀·Fᵗ + Q`, and `update`'s Joseph form
`(I−K·H)·P₀·(I−K·H)ᵗ + K·R·Kᵗ` is symmetric for any `K`. -/
theorem C5_symmetry_invariant {dim_x dim_z dim_u : ℕ}
    (f f' : FadingKalmanFilter dim_x dim_z dim_u)
    (ops : List (Call dim_x dim_z dim_u))
    (hP : f.Pᵀ = f.P) (hQ : f.Qᵀ = f.Q) (hR : f.Rᵀ = f.R)
    (hops : ∀ c ∈ ops, CallRSymm c)
    (h : runCalls f ops = some f') : f'.Pᵀ = f'.P := by
  induction ops generalizing f with
  | nil =>
    cases h
    exact hP
  | cons c rest ih =>
    unfold runCalls at h
    cases hc : runCall f c with
    | none =>
      rw [hc] at h
      cases h
    | some g =>
      rw [hc] at h
      obtain ⟨hgP, hgQ, hgR⟩ :=
        runCall_symm f g c hP hQ hR (hops c (List.mem_cons_self c rest)) hc
      exact ih g hgP hgQ hgR (fun d hd => hops d (List.mem_cons_of_mem c hd)) h

/-- C5 witness: a `predict` followed by a skipped measurement on the 1-D
scenario filter keeps the covariance symmetric. -/
theorem C5_symmetry_invariant_witness :
    ∃ f', runCalls fil1D [Call.predictC 0, Call.updateC none RArg.noneR] = some f' ∧
      f'.Pᵀ = f'.P := by
  have hrun : runCalls fil1D [Call.predictC 0, Call.updateC none RArg.noneR] =
      some (predict fil1D 0) := rfl
  refine ⟨predict fil1D 0, hrun,
    C5_symmetry_invariant fil1D (predict fil1D 0) _ Matrix.transpose_one
      (by show (0 : SqMat 1)ᵀ = 0; rw [Matrix.transpose_zero])
      Matrix.transpose_one ?_ hrun⟩
  intro c hc
  simp only [List.mem_cons, List.not_mem_nil, or_false] at hc
  rcases hc with rfl | rfl
  · exact trivial
  · exact trivial

theorem runSteps_cons {dim_x dim_z dim_u : ℕ}
    {step : FadingKalmanFilter dim_x dim_z dim_u →
      Option (ColVec dim_z) × RArg dim_z →
      Option (FadingKalmanFilter dim_x dim_z dim_u)}
    {f g : FadingKalmanFilter dim_x dim_z dim_u}
    {zr : Option (ColVec dim_z) × RArg dim_z}
    {rest : List (Option (ColVec dim_z) × RArg dim_z)}
    (hstep : step f zr = some g) :
    runSteps step f (zr :: rest) = runSteps step g rest := by
  simp only [runSteps, hstep]

theorem batch_core_false_upd_none {dim_x dim_z dim_u : ℕ}
    {f : FadingKalmanFilter dim_x dim_z dim_u}
    {zr : Option (ColVec dim_z) × RArg dim_z}
    {rest : List (Option (ColVec dim_z) × RArg dim_z)}
    (hu : update (predict f 0) zr.1 zr.2 = none) :
    batch_core false f (zr :: rest) = none := by
  simp only [batch_core, hu]

theorem batch_core_false_rest_none {dim_x dim_z dim_u : ℕ}
    {f f2 : FadingKalmanFilter dim_x dim_z dim_u}
    {zr : Option (ColVec dim_z) × RArg dim_z}
    {rest : List (Option (ColVec dim_z) × RArg dim_z)}
    (hu : update (predict f 0) zr.1 zr.2 = some f2)
    (hb : batch_core false f2 rest = none) :
    batch_core false f (zr :: rest) = none := by
  simp only [batch_core, hu, hb]

theorem batch_core_false_cons {dim_x dim_z dim_u : ℕ}
    {f f2 : FadingKalmanFilter dim_x dim_z dim_u}
    {zr : Option (ColVec dim_z) × RArg dim_z}
    {rest : List (Option (ColVec dim_z) × RArg dim_z)}
    {o : BatchOut dim_x dim_z dim_u}
    (hu : update (predict f 0) zr.1 zr.2 = some f2)
    (hb : batch_core false f2 rest = some o) :
    batch_core false f (zr :: rest) =
      some ⟨f2.x :: o.means, f2.P :: o.covs,
        (predict f 0).x :: o.means_p, (predict f 0).P :: o.covs_p, o.final⟩ := by
  simp only [batch_core, hu, hb]

theorem batch_core_true_upd_none {dim_x dim_z dim_u : ℕ}
    {f : FadingKalmanFilter dim_x dim_z dim_u}
    {zr : Option (ColVec dim_z) × RArg dim_z}
    {rest : List (Option (ColVec dim_z) × RArg dim_z)}
    (hu : update f zr.1 zr.2 = none) :
    batch_core true f (zr :: rest) = none := by
  simp only [batch_core, hu]

theorem batch_core_true_rest_none {dim_x dim_z dim_u : ℕ}
    {f f1 : FadingKalmanFilter dim_x dim_z dim_u}
    {zr : Option (ColVec dim_z) × RArg dim_z}
    {rest : List (Option (ColVec dim_z) × RArg dim_z)}
    (hu : update f zr.1 zr.2 = some f1)
    (hb : batch_core true (predict f1 0) rest = none) :
    batch_core true f (zr :: rest) = none := by
  simp only [batch_core, hu, hb]

theorem batch_core_true_cons {dim_x dim_z dim_u : ℕ}
    {f f1 : FadingKalmanFilter dim_x dim_z dim_u}
    {zr : Option (ColVec dim_z) × RArg dim_z}
    {rest : List (Option (ColVec dim_z) × RArg dim_z)}
    {o : BatchOut dim_x dim_z dim_u}
    (hu : update f zr.1 zr.2 = some f1)
    (hb : batch_core true (predict f1 0) rest = some o) :
    batch_core true f (zr :: rest) =
      some ⟨f1.x :: o.means, f1.P :: o.covs,
        (predict f1 0).x :: o.means_p, (predict f1 0).P :: o.covs_p, o.final⟩ := by
  simp only [batch_core, hu, hb]

theorem batch_core_lengths {dim_x dim_z dim_u : ℕ} (uf : Bool) :
    ∀ (l : List (Option (ColVec dim_z) × RArg dim_z))
      (f : FadingKalmanFilter dim_x dim_z dim_u) (o : BatchOut dim_x dim_z dim_u),
      batch_core uf f l = some o →
      o.means.length = l.length ∧ o.covs.length = l.length ∧
      o.means_p.length = l.length ∧ o.covs_p.length = l.length := by
  intro l
  induction l with
  | nil =>
    intro f o h
    cases uf <;> (cases h; exact ⟨rfl, rfl, rfl, rfl⟩)
  | cons zr rest ih =>
    intro f o h
    cases uf with
    | false =>
      cases hu : update (predict f 0) zr.1 zr.2 with
      | none =>
        rw [batch_core_false_upd_none hu] at h
        cases h
      | some f2 =>
        cases hb : batch_core false f2 rest with
        | none =>
          rw [batch_core_false_rest_none hu hb] at h
          cases h
        | some o' =>
          rw [batch_core_false_cons hu hb] at h
          cases h
          obtain ⟨h1, h2, h3, h4⟩ := ih f2 o' hb
          exact ⟨by simp [h1], by simp [h2], by simp [h3], by simp [h4]⟩
    | true =>
      cases hu : update f zr.1 zr.2 with
      | none =>
        rw [batch_core_true_upd_none hu] at h
        cases h
      | some f1 =>
        cases hb : batch_core true (predict f1 0) rest with
        | none =>
          rw [batch_core_true_rest_none hu hb] at h
          cases h
        | some o' =>
          rw [batch_core_true_cons hu hb] at h
          cases h
          obtain ⟨h1, h2, h3, h4⟩ := ih (predict f1 0) o' hb
          exact ⟨by simp [h1], by simp [h2], by simp [h3], by simp [h4]⟩

theorem batch_core_final_false {dim_x dim_z dim_u : ℕ} :
    ∀ (l : List (Option (ColVec dim_z) × RArg dim_z))
      (f : FadingKalmanFilter dim_x dim_z dim_u) (o : BatchOut dim_x dim_z dim_u),
      batch_core false f l = some o → runSteps stepPU f l = some o.final := by
  intro l
  induction l with
  | nil =>
    intro f o h
    cases h
    rfl
  | cons zr rest ih =>
    intro f o h
    cases hu : update (predict f 0) zr.1 zr.2 with
    | none =>
      rw [batch_core_false_upd_none hu] at h
      cases h
    | some f2 =>
      cases hb : batch_core false f2 rest with
      | none =>
        rw [batch_core_false_rest_none hu hb] at h
        cases h
      | some o' =>
        rw [batch_core_false_cons hu hb] at h
        cases h
        rw [runSteps_cons (show stepPU f zr = some f2 from hu)]
        exact ih f2 o' hb

theorem batch_core_final_true {dim_x dim_z dim_u : ℕ} :
    ∀ (l : List (Option (ColVec dim_z) × RArg dim_z))
      (f : FadingKalmanFilter dim_x dim_z dim_u) (o : BatchOut dim_x dim_z dim_u),
      batch_core true f l = some o → runSteps stepUP f l = some o.final := by
  intro l
  induction l with
  | nil =>
    intro f o h
    cases h
    rfl
  | cons zr rest ih =>
    intro f o h
    cases hu : update f zr.1 zr.2 with
    | none =>
      rw [batch_core_true_upd_none hu] at h
      cases h
    | some f1 =>
      cases hb : batch_core true (predict f1 0) rest with
      | none =>
        rw [batch_core_true_rest_none hu hb] at h
        cases h
      | some o' =>
        rw [batch_core_true_cons hu hb] at h
        cases h
        rw [runSteps_cons (show stepUP f zr = some (predict f1 0) by
          simp only [stepUP, hu])]
        exact ih (predict f1 0) o' hb

theorem batch_core_false_get {dim_x dim_z dim_u : ℕ} :
    ∀ (l : List (Option (ColVec dim_z) × RArg dim_z))
      (f : FadingKalmanFilter dim_x dim_z dim_u) (o : BatchOut dim_x dim_z dim_u),
      batch_core false f l = some o → ∀ i, i < l.length →
      (∃ g, runSteps stepPU f (l.take (i + 1)) = some g ∧
        o.means.get? i = some g.x ∧ o.covs.get? i = some g.P) ∧
      (∃ g, runSteps stepPU f (l.take i) = some g ∧
        o.means_p.get? i = some (predict g 0).x ∧
        o.covs_p.get? i = some (predict g 0).P) := by
  intro l
  induction l with
  | nil =>
    intro f o h i hi
    exact absurd hi (by simp)
  | cons zr rest ih =>
    intro f o h i hi
    cases hu : update (predict f 0) zr.1 zr.2 with
    | none =>
      rw [batch_core_false_upd_none hu] at h
      cases h
    | some f2 =>
      cases hb : batch_core false f2 rest with
      | none =>
        rw [batch_core_false_rest_none hu hb] at h
        cases h
      | some o' =>
        rw [batch_core_false_cons hu hb] at h
        cases h
        have hstep : stepPU f zr = some f2 := hu
        cases i with
        | zero =>
          constructor
          · exact ⟨f2, by
              rw [List.take_succ_cons, List.take_zero, runSteps_cons hstep]
              rfl, rfl, rfl⟩
          · exact ⟨f, by rw [List.take_zero]; rfl, rfl, rfl⟩
        | succ i =>
          have hi' : i < rest.length := by
            simpa using hi
          obtain ⟨⟨g, hg, hm, hc⟩, ⟨g', hg', hmp, hcp⟩⟩ := ih f2 o' hb i hi'
          constructor
          · exact ⟨g, by
              rw [List.take_succ_cons, runSteps_cons hstep]
              exact hg, by simpa using hm, by simpa using hc⟩
          · exact ⟨g', by
              rw [List.take_succ_cons, runSteps_cons hstep]
              exact hg', by simpa using hmp, by simpa using hcp⟩

theorem batch_core_true_get {dim_x dim_z dim_u : ℕ} :
    ∀ (l : List (Option (ColVec dim_z) × RArg dim_z))
      (f : FadingKalmanFilter dim_x dim_z dim_u) (o : BatchOut dim_x dim_z dim_u),
      batch_core true f l = some o → ∀ i, i < l.length →
      (∃ zr g fu, l.get? i = some zr ∧
        runSteps stepUP f (l.take i) = some g ∧
        update g zr.1 zr.2 = some fu ∧
        o.means.get? i = some fu.x ∧ o.covs.get? i = some fu.P) ∧
      (∃ g, runSteps stepUP f (l.take (i + 1)) = some g ∧
        o.means_p.get? i = some g.x ∧ o.covs_p.get? i = some g.P) := by
  intro l
  induction l with
  | nil =>
    intro f o h i hi
    exact absurd hi (by simp)
  | cons zr rest ih =>
    intro f o h i hi
    cases hu : update f zr.1 zr.2 with
    | none =>
      rw [batch_core_true_upd_none hu] at h
      cases h
    | some f1 =>
      cases hb : batch_core true (predict f1 0) rest with
      | none =>
        rw [batch_core_true_rest_none hu hb] at h
        cases h
      | some o' =>
        rw [batch_core_true_cons hu hb] at h
        cases h
        have hstep : stepUP f zr = some (predict f1 0) := by
          simp only [stepUP, hu]
        cases i with
        | zero =>
          constructor
          · exact ⟨zr, f, f1, rfl, by rw [List.take_zero]; rfl, hu, rfl, rfl⟩
          · exact ⟨predict f1 0, by
              rw [List.take_succ_cons, List.take_zero, runSteps_cons hstep]
              rfl, rfl, rfl⟩
        | succ i =>
          have hi' : i < rest.length := by
            simpa using hi
          obtain ⟨⟨zr', g, fu, hz, hg, hup, hm, hc⟩, ⟨g', hg', hmp, hcp⟩⟩ :=
            ih (predict f1 0) o' hb i hi'
          constructor
          · exact ⟨zr', g, fu, by simpa using hz, by
              rw [List.take_succ_cons, runSteps_cons hstep]
              exact hg, hup, by simpa using hm, by simpa using hc⟩
          · exact ⟨g', by
              rw [List.take_succ_cons, runSteps_cons hstep]
              exact hg', by simpa using hmp, by simpa using hcp⟩

/-- C3: `batch_filter` (with `Rs` absent or of matching length) returns four
sequences of length `n`; with `update_first = False` each step runs
`predict()` then `update(zs[i], Rs[i])`, the recorded means/covariances at
index `i` equal the state of `i+1` manual predict-update steps from the
same starting filter, and the recorded predictions equal the post-predict
state of step `i`; with `update_first = True` each step runs `update` then
`predict`, means/covariances record the post-update state and predictions
the post-predict state.  (Snapshot independence is inherent: the recorded
entries are values of the pure embedding.) -/
theorem C3_batch_spec {dim_x dim_z dim_u : ℕ}
    (f : FadingKalmanFilter dim_x dim_z dim_u)
    (zs : List (Option (ColVec dim_z))) (Rs : Option (List (RArg dim_z)))
    (uf : Bool) (o : BatchOut dim_x dim_z dim_u)
    (hRs : ∀ rs, Rs = some rs → rs.length = zs.length)
    (h : batch_filter f zs Rs uf = some o) :
    o.means.length = zs.length ∧ o.covs.length = zs.length ∧
    o.means_p.length = zs.length ∧ o.covs_p.length = zs.length ∧
    (uf = false → ∀ i, i < zs.length →
      (∃ g, runSteps stepPU f
          ((zs.zip (Rs.getD (List.replicate zs.length RArg.noneR))).take (i + 1)) =
            some g ∧
        o.means.get? i = some g.x ∧ o.covs.get? i = some g.P) ∧
      (∃ g, runSteps stepPU f
          ((zs.zip (Rs.getD (List.replicate zs.length RArg.noneR))).take i) =
            some g ∧
        o.means_p.get? i = some (predict g 0).x ∧
        o.covs_p.get? i = some (predict g 0).P)) ∧
    (uf = true → ∀ i, i < zs.length →
      (∃ zr g fu,
        (zs.zip (Rs.getD (List.replicate zs.length RArg.noneR))).get? i = some zr ∧
        runSteps stepUP f
          ((zs.zip (Rs.getD (List.replicate zs.length RArg.noneR))).take i) =
            some g ∧
        update g zr.1 zr.2 = some fu ∧
        o.means.get? i = some fu.x ∧ o.covs.get? i = some fu.P) ∧
      (∃ g, runSteps stepUP f
          ((zs.zip (Rs.getD (List.replicate zs.length RArg.noneR))).take (i + 1)) =
            some g ∧
        o.means_p.get? i = some g.x ∧ o.covs_p.get? i = some g.P)) := by
  have hc : batch_core uf f
      (zs.zip (Rs.getD (List.replicate zs.length RArg.noneR))) = some o := h
  have hlen : (zs.zip (Rs.getD (List.replicate zs.length RArg.noneR))).length =
      zs.length := by
    cases Rs with
    | none => simp
    | some rs => simp [List.length_zip, hRs rs rfl]
  obtain ⟨h1, h2, h3, h4⟩ := batch_core_lengths uf _ f o hc
  rw [hlen] at h1 h2 h3 h4
  refine ⟨h1, h2, h3, h4, ?_, ?_⟩
  · rintro rfl i hi
    exact batch_core_false_get _ f o hc i (by rw [hlen]; exact hi)
  · rintro rfl i hi
    exact batch_core_true_get _ f o hc i (by rw [hlen]; exact hi)

/-- C3 witness: a one-element batch (a skipped measurement) on the 1-D
scenario filter returns four sequences of length one. -/
theorem C3_batch_spec_witness :
    ∃ o, batch_filter fil1D [none] none false = some o ∧
      o.means.length = 1 ∧ o.covs.length = 1 ∧
      o.means_p.length = 1 ∧ o.covs_p.length = 1 := by
  have hb : batch_filter fil1D [none] none false =
      some ⟨[(predict fil1D 0).x], [(predict fil1D 0).P],
        [(predict fil1D 0).x], [(predict fil1D 0).P], predict fil1D 0⟩ := rfl
  obtain ⟨h1, h2, h3, h4, _⟩ :=
    C3_batch_spec fil1D [none] none false _ (fun rs hrs => by cases hrs) hb
  exact ⟨_, hb, h1, h2, h3, h4⟩

/-- C10: `batch_filter` mutates the filter in place: the state it leaves
behind is the last recorded filtered entry when `update_first = False` and
the last recorded predicted entry when `update_first = True`. -/
theorem C10_batch_mutation {dim_x dim_z dim_u : ℕ}
    (f : FadingKalmanFilter dim_x dim_z dim_u)
    (zs : List (Option (ColVec dim_z))) (Rs : Option (List (RArg dim_z)))
    (uf : Bool) (o : BatchOut dim_x dim_z dim_u)
    (hRs : ∀ rs, Rs = some rs → rs.length = zs.length)
    (hne : zs ≠ [])
    (h : batch_filter f zs Rs uf = some o) :
    (uf = false →
      o.means.getLast? = some o.final.x ∧ o.covs.getLast? = some o.final.P) ∧
    (uf = true →
      o.means_p.getLast? = some o.final.x ∧ o.covs_p.getLast? = some o.final.P) := by
  have hc : batch_core uf f
      (zs.zip (Rs.getD (List.replicate zs.length RArg.noneR))) = some o := h
  have hlen : (zs.zip (Rs.getD (List.replicate zs.length RArg.noneR))).length =
      zs.length := by
    cases Rs with
    | none => simp
    | some rs => simp [List.length_zip, hRs rs rfl]
  have hpos : 0 <
      (zs.zip (Rs.getD (List.replicate zs.length RArg.noneR))).length := by
    rw [hlen]
    exact List.length_pos.mpr hne
  obtain ⟨h1, h2, h3, h4⟩ := batch_core_lengths uf _ f o hc
  have hi : (zs.zip (Rs.getD (List.replicate zs.length RArg.noneR))).length - 1 <
      (zs.zip (Rs.getD (List.replicate zs.length RArg.noneR))).length := by
    omega
  have hik : (zs.zip (Rs.getD (List.replicate zs.length RArg.noneR))).length - 1 + 1 =
      (zs.zip (Rs.getD (List.replicate zs.length RArg.noneR))).length := by
    omega
  constructor
  · rintro rfl
    obtain ⟨⟨g, hg, hm, hcv⟩, _⟩ := batch_core_false_get _ f o hc _ hi
    rw [hik, List.take_length] at hg
    rw [batch_core_final_false _ f o hc] at hg
    injection hg with hg
    subst hg
    constructor
    · rw [List.getLast?_eq_get?, h1]
      exact hm
    · rw [List.getLast?_eq_get?, h2]
      exact hcv
  · rintro rfl
    obtain ⟨_, ⟨g, hg, hmp, hcp⟩⟩ := batch_core_true_get _ f o hc _ hi
    rw [hik, List.take_length] at hg
    rw [batch_core_final_true _ f o hc] at hg
    injection hg with hg
    subst hg
    constructor
    · rw [List.getLast?_eq_get?, h3]
      exact hmp
    · rw [List.getLast?_eq_get?, h4]
      exact hcp

/-- C10 witness: after a one-element batch on the 1-D scenario filter the
returned final state is the last filtered entry. -/
theorem C10_batch_mutation_witness :
    ∃ o, batch_filter fil1D [none] none false = some o ∧
      o.means.getLast? = some o.final.x ∧ o.covs.getLast? = some o.final.P := by
  have hb : batch_filter fil1D [none] none false =
      some ⟨[(predict fil1D 0).x], [(predict fil1D 0).P],
        [(predict fil1D 0).x], [(predict fil1D 0).P], predict fil1D 0⟩ := rfl
  exact ⟨_, hb, (C10_batch_mutation fil1D [none] none false _
    (fun rs hrs => by cases hrs) (by simp) hb).1 rfl⟩
